import Mathlib

/-!
Verification development for the two-phase LLM-readme commit hooks
(src/scripts/post-commit-llm-readme.ts: a post-commit script followed by a
pre-commit script).  The TypeScript functions are shallowly embedded as
executable Lean definitions; filesystem and child-process effects are made
explicit as state values and behaviour oracles.
-/

namespace LlmReadme

/-! ## Path model

Paths are plain strings.  The scripts run node path functions on relative
paths; both separator characters are handled, mirroring the regular
expressions in the source, which accept both / and \ . -/

/-- A path separator character, as in the source regex [\\/]. -/
def isSep (c : Char) : Bool := c = '/' || c = '\\'

/-- Model of node path.dirname on the relative paths used by the scripts:
drop the basename after the last separator run, then drop that run; a
separator-free path has directory "." . -/
def dirname (p : String) : String :=
  let r := p.data.reverse
  let afterBase := r.dropWhile (fun c => !(isSep c))
  let afterSeps := afterBase.dropWhile isSep
  if afterSeps.isEmpty then
    if afterBase.isEmpty then "." else "/"
  else
    ⟨afterSeps.reverse⟩

/-- The replacement of the leading-prefix regex in transformPathToFilename:
dirPath.replace of leading [.\\/]+ characters with the empty string. -/
def stripDotSlash (cs : List Char) : List Char :=
  cs.dropWhile (fun c => c = '.' || c = '\\' || c = '/')

/-- The replacement of every maximal separator run [\\/]+ by one hyphen,
as in dirPath.replace in transformPathToFilename. -/
def collapseSeps : List Char → List Char
  | [] => []
  | [c] => if isSep c then ['-'] else [c]
  | c1 :: c2 :: rest =>
    if isSep c1 && isSep c2 then collapseSeps (c2 :: rest)
    else (if isSep c1 then '-' else c1) :: collapseSeps (c2 :: rest)

/-- The conventional short directory names of the source regex
(src|test|docs|tools|types). -/
def convNames : List String := ["src", "test", "docs", "tools", "types"]

/-- The normalized flattened token of transformPathToFilename: the directory
path with the leading [.\\/]+ run removed and separator runs replaced by
hyphens. -/
def normalizedToken (filePath : String) : String :=
  ⟨collapseSeps (stripDotSlash (dirname filePath).data)⟩

/-- transformPathToFilename from processLlmReadmeFiles (pre-commit script):
root-level inputs map to the fixed constant name; otherwise the directory
path is stripped of a leading dot/separator run, separators become hyphens,
and a conventional token gets a -root suffix before the extension. -/
def transformPathToFilename (filePath : String) : String :=
  if dirname filePath = "." ∨ dirname filePath = "" then "project-root.json"
  else if normalizedToken filePath ∈ convNames then normalizedToken filePath ++ "-root.json"
  else normalizedToken filePath ++ ".json"

/-- Path segments: maximal separator-free nonempty runs of the path. -/
def splitSegsAux : List Char → List Char → List (List Char)
  | [], acc => if acc.isEmpty then [] else [acc.reverse]
  | c :: cs, acc =>
    if isSep c then
      if acc.isEmpty then splitSegsAux cs [] else acc.reverse :: splitSegsAux cs []
    else splitSegsAux cs (c :: acc)

/-- The list of segments of a path string. -/
def pathSegments (p : String) : List String :=
  (splitSegsAux p.data []).map (fun l => ⟨l⟩)

/-- Joining a list of segments with the separator /, the shape of the
directory part of the paths fed to transformPathToFilename. -/
def joinSegs : List (List Char) → List Char
  | [] => []
  | [s] => s
  | s :: s2 :: rest => s ++ '/' :: joinSegs (s2 :: rest)

/-- Joining a list of segments with hyphens, the shape of the flattened
token produced by collapseSeps on a joined path. -/
def joinHyph : List (List Char) → List Char
  | [] => []
  | [s] => s
  | s :: s2 :: rest => s ++ '-' :: joinHyph (s2 :: rest)

/-! ## Substring test (JS String.prototype.includes) -/

/-- Whether the second list occurs at the head of the first. -/
def listHasPref : List Char → List Char → Bool
  | _, [] => true
  | [], _ :: _ => false
  | c :: cs, p :: ps => c = p && listHasPref cs ps

/-- Whether the pattern occurs anywhere in the list. -/
def subListAt : List Char → List Char → Bool
  | [], pat => pat.isEmpty
  | c :: cs, pat => listHasPref (c :: cs) pat || subListAt cs pat

/-- JS s.includes(pat). -/
def strContains (s pat : String) : Bool := subListAt s.data pat.data

/-- A whitespace character as trimmed by JS String.prototype.trim. -/
def isWs (c : Char) : Bool := c = ' ' || c = '\n' || c = '\t' || c = '\r'

/-- JS s.trim(): strip leading and trailing whitespace. -/
def strTrim (s : String) : String :=
  ⟨(((s.data.dropWhile isWs).reverse.dropWhile isWs).reverse : List Char)⟩

/-! ## IndexMerger: processLlmReadmeFiles (pre-commit script)

The filesystem is explicit: the source tree and the master index are maps
from path to optional content; the outcome of each attempted relocation
(fs.renameSync, with fs.copyFileSync + fs.unlinkSync as fallback) is an
oracle indexed by the source path. -/

/-- The excludeDirs list of processLlmReadmeFiles. -/
def excludeDirs : List String :=
  ["benchmark", "benchmarks", "node_modules", ".git", "dist", "coverage"]

/-- The per-file exclusion test: excludeDirs.some(dir => relativeFilePath.includes(dir)). -/
def isExcludedPath (p : String) : Bool := excludeDirs.any (fun d => strContains p d)

/-- Outcome of one relocation attempt: renameSync succeeds; renameSync fails
and the copy+unlink fallback succeeds; the copy succeeds but the unlink
throws; or the fallback fails entirely. -/
inductive MoveKind where
  | renameOk : MoveKind
  | copyOk : MoveKind
  | copyOkUnlinkFail : MoveKind
  | moveFail : MoveKind
deriving DecidableEq

/-- State threaded through the merge loop: source tree contents, master
index contents, and the four counters of processLlmReadmeFiles. -/
structure MergeState where
  src : String → Option String
  idx : String → Option String
  filesFound : Nat
  filesCopied : Nat
  filesUpdated : Nat
  filesSkipped : Nat

/-- Pointwise map update. -/
def updFn (f : String → Option String) (k : String) (v : Option String) :
    String → Option String :=
  fun x => if x = k then v else f x

/-- One iteration of the processLlmReadmeFiles loop.  Note the source order:
the NEW/UPDATE classification (by destination existence) happens before the
source-existence check and before the relocation attempt. -/
def processOne (mv : String → MoveKind) (st : MergeState) (p : String) : MergeState :=
  if isExcludedPath p then { st with filesSkipped := st.filesSkipped + 1 }
  else
    let stClassified :=
      if (st.idx (transformPathToFilename p)).isSome then
        { st with filesFound := st.filesFound + 1, filesUpdated := st.filesUpdated + 1 }
      else
        { st with filesFound := st.filesFound + 1, filesCopied := st.filesCopied + 1 }
    match st.src p with
    | none => { stClassified with filesSkipped := stClassified.filesSkipped + 1 }
    | some content =>
      match mv p with
      | .moveFail => { stClassified with filesSkipped := stClassified.filesSkipped + 1 }
      | .copyOkUnlinkFail =>
        { stClassified with
            idx := updFn stClassified.idx (transformPathToFilename p) (some content),
            filesSkipped := stClassified.filesSkipped + 1 }
      | _ =>
        { stClassified with
            src := updFn stClassified.src p none,
            idx := updFn stClassified.idx (transformPathToFilename p) (some content) }

/-- The merge loop over the list of discovered artifact paths. -/
def processLlmReadmeFiles (mv : String → MoveKind) (files : List String)
    (st : MergeState) : MergeState :=
  files.foldl (processOne mv) st

/-! ## CommandRunner: executeCommand (identical retry logic in both scripts)

The external command is a behaviour oracle mapping the attempt number to
the captured output or the error message of that attempt.  The for-loop
over attempt = 1..retries is embedded as a walk over the list of attempt
numbers; isLastAttempt (attempt === retries) is the emptiness of the tail. -/

/-- Result of a run: the returned or thrown value, the backoff waits (in
milliseconds) performed between attempts, and the number of attempts made. -/
structure ExecOutcome where
  result : Except String String
  waits : List Nat
  attempts : Nat

/-- The wrapped message thrown when the budget is exhausted. -/
def failAfterMsg (retries : Nat) (msg : String) : String :=
  "Command failed after " ++ toString retries ++ " attempts: " ++ msg

/-- The loop body of executeCommand over the remaining attempt numbers. -/
def runAttempts (behavior : Nat → Except String String) (retries : Nat) :
    List Nat → ExecOutcome
  | [] => ⟨.error "Unexpected error in executeCommand", [], 0⟩
  | a :: rest =>
    match behavior a with
    | .ok out => ⟨.ok out, [], 1⟩
    | .error msg =>
      if rest.isEmpty then ⟨.error (failAfterMsg retries msg), [], 1⟩
      else
        let r := runAttempts behavior retries rest
        ⟨r.result, 2 ^ (a - 1) * 1000 :: r.waits, r.attempts + 1⟩

/-- executeCommand with a retry budget: attempts 1..retries in order. -/
def executeCommand (behavior : Nat → Except String String) (retries : Nat) :
    ExecOutcome :=
  runAttempts behavior retries (List.range' 1 retries)

/-! ## TargetDirectoryResolver: determineTargetDirectories (pre-commit script) -/

/-- getStagedFiles: runs git diff --name-only --cached with one attempt,
returns [] on failure or empty output, and filters out blank lines and
paths under master-index/. -/
def getStagedFiles (behavior : Nat → Except String String) : List String :=
  match (executeCommand behavior 1).result with
  | .error _ => []
  | .ok output =>
    if (strTrim output).length = 0 then []
    else
      ((strTrim output).splitOn "\n").filter
        (fun f => !(f == "") && !(strTrim f == "") && !(f.startsWith "master-index/"))

/-- Insertion into the JS Set of target paths: insertion order, first
occurrence kept. -/
def insertUnique (l : List String) (s : String) : List String :=
  if s ∈ l then l else l ++ [s]

/-- The set of target paths derived from staged files: the immediate parent
directory, or the file itself for root-level files. -/
def stagedTargetPaths (files : List String) : List String :=
  files.foldl
    (fun acc file =>
      if dirname file ≠ "." then insertUnique acc (dirname file)
      else insertUnique acc file)
    []

/-- The excludedDirs list of determineTargetDirectories. -/
def excludedDirsResolver : List String :=
  ["node_modules", ".git", "dist", "build", "coverage", ".next", ".nuxt"]

/-- The filteredPaths computation of determineTargetDirectories. -/
def resolverFiltered (files : List String) : List String :=
  (stagedTargetPaths files).filter
    (fun dir =>
      !(excludedDirsResolver.contains dir) &&
      !(excludedDirsResolver.any (fun ex => dir.startsWith (ex ++ "/"))))

/-- determineTargetDirectories.  Inputs: the configured explicit target
directories, whether the master-index folder is missing or empty, and the
behaviour of the git staged-files query.  getStagedFiles swallows its own
command failures, so every failure path degrades to the whole-tree scope. -/
def determineTargetDirectories (cfgTargets : List String)
    (masterIndexMissingOrEmpty : Bool)
    (gitBehavior : Nat → Except String String) : List String :=
  if cfgTargets.length > 0 then cfgTargets
  else if masterIndexMissingOrEmpty then ["."]
  else
    if (getStagedFiles gitBehavior).length = 0 then ["."]
    else if (resolverFiltered (getStagedFiles gitBehavior)).length > 0 then
      resolverFiltered (getStagedFiles gitBehavior)
    else ["."]

/-! ## HandoffStore: saveCommitMetadata / loadCommitMetadata / cleanupMetadata

The metadata file is an Option String (absent, or present with content).
JSON.stringify(metadata, null, 2) on the three-field record is modelled
concretely, including string escaping; JSON.parse is modelled as a parser
of that canonical serialization, returning none on anything else, which is
the none branch of the try/catch in loadCommitMetadata. -/

/-- The CommitMetadata record shared by both scripts. -/
structure CommitMetadata where
  timestamp : String
  commitMessage : String
  hasLlmReadmeFiles : Bool
deriving DecidableEq

/-- JSON string escaping of one character as produced by JSON.stringify
(for characters that are not otherwise-escaped control characters). -/
def escChar (c : Char) : List Char :=
  if c = '"' then ['\\', '"']
  else if c = '\\' then ['\\', '\\']
  else if c = '\n' then ['\\', 'n']
  else if c = '\r' then ['\\', 'r']
  else if c = '\t' then ['\\', 't']
  else if c = Char.ofNat 8 then ['\\', 'b']
  else if c = Char.ofNat 12 then ['\\', 'f']
  else [c]

/-- JSON string escaping of a character list. -/
def escapeStr (cs : List Char) : List Char :=
  cs.foldr (fun c acc => escChar c ++ acc) []

/-- Decoding of one escape character after a backslash. -/
def unescChar (c : Char) : Option Char :=
  if c = '"' then some '"'
  else if c = '\\' then some '\\'
  else if c = '/' then some '/'
  else if c = 'n' then some '\n'
  else if c = 'r' then some '\r'
  else if c = 't' then some '\t'
  else if c = 'b' then some (Char.ofNat 8)
  else if c = 'f' then some (Char.ofNat 12)
  else none

/-- Parsing of a JSON string body up to and including the closing quote;
returns the decoded characters and the rest of the input. -/
def parseStrBody : List Char → Option (List Char × List Char)
  | [] => none
  | c :: rest =>
    if c = '"' then some ([], rest)
    else if c = '\\' then
      match rest with
      | [] => none
      | d :: rest2 =>
        match unescChar d, parseStrBody rest2 with
        | some e, some (s, r) => some (e :: s, r)
        | _, _ => none
    else
      match parseStrBody rest with
      | none => none
      | some (s, r) => some (c :: s, r)

/-- Literal matching: returns the input after the expected literal, or none. -/
def stripLit : List Char → List Char → Option (List Char)
  | [], cs => some cs
  | _ :: _, [] => none
  | l :: ls, c :: cs => if c = l then stripLit ls cs else none

/-- The serialization pieces of JSON.stringify(metadata, null, 2). -/
def litTimestamp : String := "\x7b\n  \"timestamp\": \""

/-- Literal between the timestamp value and the commitMessage value. -/
def litCommitMessage : String := ",\n  \"commitMessage\": \""

/-- Literal between the commitMessage value and the boolean field. -/
def litHasFiles : String := ",\n  \"hasLlmReadmeFiles\": "

/-- Closing literal of the serialized object. -/
def litEnd : String := "\n\x7d"

/-- JSON.stringify(metadata, null, 2) on the three-field record. -/
def stringifyMetadata (m : CommitMetadata) : String :=
  litTimestamp ++ ⟨escapeStr m.timestamp.data⟩ ++ "\"" ++
  litCommitMessage ++ ⟨escapeStr m.commitMessage.data⟩ ++ "\"" ++
  litHasFiles ++ (if m.hasLlmReadmeFiles then "true" else "false") ++ litEnd

/-- JSON.parse restricted to the canonical serialization shape above;
anything else yields none (the catch branch of loadCommitMetadata). -/
def parseMetadata (content : String) : Option CommitMetadata :=
  match stripLit litTimestamp.data content.data with
  | none => none
  | some r1 =>
    match parseStrBody r1 with
    | none => none
    | some (ts, r2) =>
      match stripLit litCommitMessage.data r2 with
      | none => none
      | some r3 =>
        match parseStrBody r3 with
        | none => none
        | some (cm, r4) =>
          match stripLit litHasFiles.data r4 with
          | none => none
          | some r5 =>
            match stripLit "true".data r5 with
            | some r6 =>
              match stripLit litEnd.data r6 with
              | some [] => some ⟨⟨ts⟩, ⟨cm⟩, true⟩
              | _ => none
            | none =>
              match stripLit "false".data r5 with
              | some r6 =>
                match stripLit litEnd.data r6 with
                | some [] => some ⟨⟨ts⟩, ⟨cm⟩, false⟩
                | _ => none
              | none => none

/-- A string JSON.stringify serializes without \\u escapes: printable
characters plus the five control characters with short escapes. -/
def validStr (s : String) : Bool :=
  s.data.all (fun c =>
    decide (32 ≤ c.toNat) || c = '\n' || c = '\r' || c = '\t' ||
    c = Char.ofNat 8 || c = Char.ofNat 12)

/-- Metadata whose string fields are serialized without \\u escapes. -/
def validMetadata (m : CommitMetadata) : Bool :=
  validStr m.timestamp && validStr m.commitMessage

/-- saveCommitMetadata (pre-commit script): writes the serialized record,
overwriting prior content; a no-op when separate commits are disabled. -/
def saveCommitMetadata (createSeparateCommits : Bool) (m : CommitMetadata)
    (fileSt : Option String) : Option String :=
  if !createSeparateCommits then fileSt
  else some (stringifyMetadata m)

/-- loadCommitMetadata (post-commit script): absent file or parse failure
yields none, never an error. -/
def loadCommitMetadata (fileSt : Option String) : Option CommitMetadata :=
  match fileSt with
  | none => none
  | some content => parseMetadata content

/-- cleanupMetadata (post-commit script): removes the file if present. -/
def cleanupMetadata (_fileSt : Option String) : Option String := none

/-! ## CommitCoordinator phase B: commitLlmReadmeFiles and main
(post-commit script)

The git commands are behaviour oracles; the run records which command
strings were issued, in order. -/

/-- The staging command of commitLlmReadmeFiles. -/
def gitAddCmd : String := "git add master-index/"

/-- The staging verification command of commitLlmReadmeFiles. -/
def gitDiffCmd : String := "git diff --name-only --cached master-index/"

/-- The commit command of commitLlmReadmeFiles, bypassing commit hooks. -/
def gitCommitCmd (m : CommitMetadata) : String :=
  "git commit -m \"" ++ m.commitMessage ++ "\" --no-verify"

/-- Environment of the post-commit phase: the result of the
hasLlmReadmeFiles master-index walk (a boolean, and that helper never
throws), and the behaviours of the three git commands. -/
structure PostEnv where
  masterIndexHasFiles : Bool
  gitAdd : Nat → Except String String
  gitDiff : Nat → Except String String
  gitCommit : Nat → Except String String

/-- commitLlmReadmeFiles: returns the success flag and the list of git
commands issued.  Every command uses a single attempt (retries 1); an
empty trimmed staging diff is raised and caught as a failure; every
failure is caught and reported as false. -/
def commitLlmReadmeFiles (env : PostEnv) (m : CommitMetadata) :
    Bool × List String :=
  if env.masterIndexHasFiles = false then (true, [])
  else
    match (executeCommand env.gitAdd 1).result with
    | .error _ => (false, [gitAddCmd])
    | .ok _ =>
      match (executeCommand env.gitDiff 1).result with
      | .error _ => (false, [gitAddCmd, gitDiffCmd])
      | .ok stagedFiles =>
        if strTrim stagedFiles = "" then (false, [gitAddCmd, gitDiffCmd])
        else
          match (executeCommand env.gitCommit 1).result with
          | .error _ => (false, [gitAddCmd, gitDiffCmd, gitCommitCmd m])
          | .ok _ => (true, [gitAddCmd, gitDiffCmd, gitCommitCmd m])

/-- Observable outcome of one run of the post-commit main function. -/
structure PostRun where
  ok : Bool
  commands : List String
  warned : Bool
  metadataFileAfter : Option String
  exitCode : Nat
deriving DecidableEq

/-- main (post-commit script): loads the metadata, returns early when it is
absent or unflagged, otherwise runs commitLlmReadmeFiles; warns (never
escalates) on failure; the finally block always deletes the metadata file;
the process then exits normally with status 0. -/
def postMain (env : PostEnv) (fileSt : Option String) : PostRun :=
  match loadCommitMetadata fileSt with
  | none => ⟨true, [], false, cleanupMetadata fileSt, 0⟩
  | some m =>
    if m.hasLlmReadmeFiles = false then ⟨true, [], false, cleanupMetadata fileSt, 0⟩
    else
      ⟨(commitLlmReadmeFiles env m).1, (commitLlmReadmeFiles env m).2,
        !(commitLlmReadmeFiles env m).1, cleanupMetadata fileSt, 0⟩

/-- The terminal paths of a phase process. -/
inductive TermEvent where
  | normalRun : TermEvent
  | sigint : TermEvent
  | sigterm : TermEvent
  | unhandledError : TermEvent
deriving DecidableEq

/-- Post-commit script terminal behaviour: the metadata file state and exit
code at process exit, per terminal path.  The SIGINT/SIGTERM handlers and
the main().catch handler each call cleanupMetadata and exit 0. -/
def postTerminal (env : PostEnv) (fileSt : Option String) :
    TermEvent → Option String × Nat
  | .normalRun =>
    ((postMain env fileSt).metadataFileAfter, (postMain env fileSt).exitCode)
  | .sigint => (cleanupMetadata fileSt, 0)
  | .sigterm => (cleanupMetadata fileSt, 0)
  | .unhandledError => (cleanupMetadata fileSt, 0)

/-- Post-commit script exit code per terminal path. -/
def postCommitExitCode (env : PostEnv) (fileSt : Option String)
    (e : TermEvent) : Nat :=
  (postTerminal env fileSt e).2

/-- Pre-commit script exit code per terminal path, from its signal handlers
and main().catch: process.exit(1) on SIGINT, SIGTERM and unhandled errors;
internal errors are caught inside main, which completes normally (0). -/
def preCommitExitCode : TermEvent → Nat
  | .normalRun => 0
  | .sigint => 1
  | .sigterm => 1
  | .unhandledError => 1

/-! ## Supporting lemmas about the path model -/

theorem dropWhile_eq_nil_of_all {p : Char → Bool} {l : List Char}
    (h : ∀ c ∈ l, p c = true) : l.dropWhile p = [] := by
  induction l with
  | nil => rfl
  | cons c cs ih =>
    rw [List.dropWhile_cons, if_pos (h c (List.mem_cons_self c cs))]
    exact ih (fun x hx => h x (List.mem_cons_of_mem c hx))

/-- A nonempty separator-free string has directory ".". -/
theorem dirname_of_nosep {s : String} (h : ∀ c ∈ s.data, isSep c = false) :
    dirname s = "." := by
  unfold dirname
  have hb : s.data.reverse.dropWhile (fun c => !(isSep c)) = [] := by
    apply dropWhile_eq_nil_of_all
    intro c hc
    simp only [List.mem_reverse] at hc
    simp [h c hc]
  simp [hb]

/-- Characters of collapseSeps output are never separators. -/
theorem collapseSeps_nosep : ∀ cs : List Char, ∀ c ∈ collapseSeps cs, isSep c = false := by
  intro cs
  induction cs with
  | nil => intro c hc; simp [collapseSeps] at hc
  | cons c1 tl ih =>
    cases tl with
    | nil =>
      intro c hc
      by_cases h1 : isSep c1 = true
      · rw [collapseSeps, if_pos h1] at hc
        simp at hc
        subst hc
        decide
      · rw [collapseSeps, if_neg h1] at hc
        simp at hc
        subst hc
        simpa using h1
    | cons c2 rest =>
      intro c hc
      by_cases h12 : (isSep c1 && isSep c2) = true
      · rw [collapseSeps, if_pos h12] at hc
        exact ih c hc
      · rw [collapseSeps, if_neg h12] at hc
        rcases List.mem_cons.mp hc with h | h
        · subst h
          by_cases h1 : isSep c1 = true
          · rw [if_pos h1]; decide
          · rw [if_neg h1]; simpa using h1
        · exact ih c h

/-- Members of dropWhile are members of the original list. -/
theorem mem_of_mem_dropWhile {p : Char → Bool} {l : List Char} {c : Char}
    (h : c ∈ l.dropWhile p) : c ∈ l :=
  (List.dropWhile_sublist p (l := l)).mem h

/-- The output of transformPathToFilename has no separators and is nonempty:
it is a flat filename. -/
theorem transform_flat (x : String) :
    (transformPathToFilename x).data ≠ [] ∧
    ∀ c ∈ (transformPathToFilename x).data, isSep c = false := by
  unfold transformPathToFilename
  split
  · exact ⟨by decide, by decide⟩
  · split
    · constructor
      · have : (normalizedToken x ++ "-root.json").data
            = (normalizedToken x).data ++ "-root.json".data := rfl
        rw [this]
        intro hcontra
        have := List.append_eq_nil.mp hcontra
        simp at this
      · intro c hc
        have hmem : c ∈ (normalizedToken x).data ++ "-root.json".data := hc
        rcases List.mem_append.mp hmem with h | h
        · exact collapseSeps_nosep _ c h
        · exact (by decide : ∀ d ∈ "-root.json".data, isSep d = false) c h
    · constructor
      · have : (normalizedToken x ++ ".json").data
            = (normalizedToken x).data ++ ".json".data := rfl
        rw [this]
        intro hcontra
        have := List.append_eq_nil.mp hcontra
        simp at this
      · intro c hc
        have hmem : c ∈ (normalizedToken x).data ++ ".json".data := hc
        rcases List.mem_append.mp hmem with h | h
        · exact collapseSeps_nosep _ c h
        · exact (by decide : ∀ d ∈ ".json".data, isSep d = false) c h

/-- A root-level input (directory "." or "") maps to the constant name. -/
theorem transform_root {y : String} (h : dirname y = "." ∨ dirname y = "") :
    transformPathToFilename y = "project-root.json" := by
  unfold transformPathToFilename
  rw [if_pos h]

/-- Applying the transform to any output of the transform yields the
root-level constant, because outputs are flat filenames. -/
theorem transform_transform (x : String) :
    transformPathToFilename (transformPathToFilename x) = "project-root.json" :=
  transform_root (Or.inl (dirname_of_nosep (transform_flat x).2))

/-- collapseSeps walks through a separator-free block unchanged. -/
theorem collapse_append_nosep :
    ∀ (s u : List Char), (∀ c ∈ s, isSep c = false) →
      collapseSeps (s ++ u) = s ++ collapseSeps u := by
  intro s
  induction s with
  | nil => intro u _; rfl
  | cons a tail ih =>
    intro u hs
    have ha : isSep a = false := hs a (List.mem_cons_self a tail)
    cases tail with
    | nil =>
      cases u with
      | nil => simp [collapseSeps, ha]
      | cons v w =>
        show collapseSeps (a :: v :: w) = a :: collapseSeps (v :: w)
        rw [collapseSeps]
        rw [if_neg (by simp [ha]), if_neg (by simp [ha])]
    | cons b s' =>
      have hb : isSep b = false := hs b (List.mem_cons_of_mem a (List.mem_cons_self b s'))
      show collapseSeps (a :: b :: (s' ++ u)) = a :: (b :: s') ++ collapseSeps u
      rw [collapseSeps]
      rw [if_neg (by simp [ha]), if_neg (by simp [ha])]
      have := ih u (fun c hc => hs c (List.mem_cons_of_mem a hc))
      simpa using congrArg (a :: ·) this

/-- The joined segment list starting with a nonempty segment starts with
that segment's head character. -/
theorem joinSegs_cons_head (c : Char) (s' : List Char) (rs : List (List Char)) :
    ∃ t, joinSegs ((c :: s') :: rs) = c :: t := by
  cases rs with
  | nil => exact ⟨s', rfl⟩
  | cons r rs' => exact ⟨s' ++ '/' :: joinSegs (r :: rs'), rfl⟩

/-- Collapsing the separator-joined segments yields the hyphen-joined
segments, when every segment is nonempty and separator-free. -/
theorem collapse_join :
    ∀ segs : List (List Char),
      (∀ s ∈ segs, s ≠ [] ∧ ∀ c ∈ s, isSep c = false) →
      collapseSeps (joinSegs segs) = joinHyph segs := by
  intro segs
  induction segs with
  | nil => intro _; rfl
  | cons s rest ih =>
    intro h
    have hsne := (h s (List.mem_cons_self s rest)).1
    have hsfree := (h s (List.mem_cons_self s rest)).2
    cases rest with
    | nil =>
      show collapseSeps (joinSegs [s]) = joinHyph [s]
      have : joinSegs [s] = s := rfl
      rw [this]
      have : joinHyph [s] = s := rfl
      rw [this]
      have := collapse_append_nosep s [] hsfree
      simpa [collapseSeps] using this
    | cons r rs =>
      have hrne := (h r (List.mem_cons_of_mem s (List.mem_cons_self r rs))).1
      have hrfree := (h r (List.mem_cons_of_mem s (List.mem_cons_self r rs))).2
      show collapseSeps (s ++ '/' :: joinSegs (r :: rs)) = s ++ '-' :: joinHyph (r :: rs)
      rw [collapse_append_nosep s _ hsfree]
      obtain ⟨c, t, hr⟩ : ∃ c t, r = c :: t := by
        cases r with
        | nil => exact absurd rfl hrne
        | cons c t => exact ⟨c, t, rfl⟩
      subst hr
      obtain ⟨u, hu⟩ := joinSegs_cons_head c t rs
      rw [hu]
      have hc : isSep c = false := hrfree c (List.mem_cons_self c t)
      have step : collapseSeps ('/' :: c :: u) = '-' :: collapseSeps (c :: u) := by
        rw [collapseSeps]
        rw [if_neg (by simp [hc]), if_pos (by decide)]
      rw [step, ← hu, ih (fun x hx => h x (List.mem_cons_of_mem s hx))]

/-- Counting hyphens in the hyphen-joined segments: one fewer than the
number of segments, when the segments are hyphen-free. -/
theorem count_hyph_join :
    ∀ segs : List (List Char),
      (∀ s ∈ segs, ∀ c ∈ s, c ≠ '-') →
      (joinHyph segs).count '-' = segs.length - 1 := by
  intro segs
  induction segs with
  | nil => intro _; rfl
  | cons s rest ih =>
    intro h
    have hs : s.count '-' = 0 := by
      rw [List.count_eq_zero]
      intro hmem
      exact h s (List.mem_cons_self s rest) '-' hmem rfl
    cases rest with
    | nil =>
      show (joinHyph [s]).count '-' = 0
      exact hs
    | cons r rs =>
      show (s ++ '-' :: joinHyph (r :: rs)).count '-' = (s :: r :: rs).length - 1
      rw [List.count_append, hs]
      have := ih (fun x hx => h x (List.mem_cons_of_mem s hx))
      simp [List.count_cons, this]

/-! ## Claim C1 -/

/-- Counterexample to Claim C1 as stated: the transform is not idempotent
on the nested input lib/llmreadme.json, whose canonical output lib.json is
itself root-level and re-transforms to project-root.json. -/
theorem spec_C1_cex :
    transformPathToFilename (transformPathToFilename "lib/llmreadme.json")
      ≠ transformPathToFilename "lib/llmreadme.json" := by decide

/-- Claim C1, amended: the path-flattening transform is a pure function of
its input; every root-level input (containing directory "." or "") yields
the fixed constant name project-root.json; re-applying the transform to any
output yields project-root.json, because every output is a flat filename;
hence idempotence holds exactly on inputs whose transform is already the
root-level constant, and fails for nested inputs. -/
theorem spec_C1 :
    (∀ x : String, dirname x = "." ∨ dirname x = "" →
      transformPathToFilename x = "project-root.json") ∧
    (∀ x : String,
      transformPathToFilename (transformPathToFilename x) = "project-root.json") ∧
    (∀ x : String, transformPathToFilename x = "project-root.json" →
      transformPathToFilename (transformPathToFilename x) = transformPathToFilename x) :=
  ⟨fun _ h => transform_root h,
   transform_transform,
   fun x h => (transform_transform x).trans h.symm⟩

/-- Witness for spec_C1 at the concrete root-level input llmreadme.json. -/
theorem spec_C1_witness :
    transformPathToFilename "llmreadme.json" = "project-root.json" ∧
    transformPathToFilename (transformPathToFilename "llmreadme.json")
      = transformPathToFilename "llmreadme.json" :=
  ⟨spec_C1.1 "llmreadme.json" (Or.inl (by decide)),
   spec_C1.2.2 "llmreadme.json" (spec_C1.1 "llmreadme.json" (Or.inl (by decide)))⟩

/-! ## Claim C9 -/

/-- Counterexample to Claim C9 as stated: the nested source path
lib/llmreadme.json has 2 segments, none containing a hyphen, its flattened
token lib is not a conventional name, yet its canonical name lib.json
contains 0 hyphens, not 2 - 1 = 1: only the containing directory is
flattened, so an N-segment full path yields N-2 hyphens. -/
theorem spec_C9_cex :
    (pathSegments "lib/llmreadme.json").length = 2 ∧
    dirname "lib/llmreadme.json" ≠ "." ∧
    normalizedToken "lib/llmreadme.json" ∉ convNames ∧
    (∀ s ∈ pathSegments "lib/llmreadme.json", '-' ∉ s.data) ∧
    (transformPathToFilename "lib/llmreadme.json").data.count '-'
      ≠ (pathSegments "lib/llmreadme.json").length - 1 := by decide

/-- Claim C9, amended: for a nested source path whose containing directory
consists of N separator-free, hyphen-free, nonempty segments, the first not
beginning with a dot, and whose flattened token is not a conventional name,
the canonical name contains exactly N - 1 hyphens (so a full N-segment
source path, filename included, yields N - 2 hyphens). -/
theorem spec_C9 (p : String) (c0 : Char) (s0 : List Char) (rest : List (List Char))
    (hd : (dirname p).data = joinSegs ((c0 :: s0) :: rest))
    (hdot : c0 ≠ '.')
    (hsegs : ∀ s ∈ (c0 :: s0) :: rest, s ≠ [] ∧ ∀ c ∈ s, isSep c = false ∧ c ≠ '-')
    (hconv : (⟨joinHyph ((c0 :: s0) :: rest)⟩ : String) ∉ convNames) :
    (transformPathToFilename p).data.count '-' = rest.length := by
  have hc0 : isSep c0 = false ∧ c0 ≠ '-' :=
    (hsegs (c0 :: s0) (List.mem_cons_self _ _)).2 c0 (List.mem_cons_self c0 s0)
  obtain ⟨t, ht⟩ := joinSegs_cons_head c0 s0 rest
  have hdata : (dirname p).data = c0 :: t := by rw [hd, ht]
  have hne1 : ¬(dirname p = "." ∨ dirname p = "") := by
    rintro (h | h)
    · rw [h] at hdata
      have : c0 = '.' := (List.cons_eq_cons.mp hdata.symm).1
      exact hdot this
    · rw [h] at hdata
      exact List.noConfusion hdata
  have hstrip : stripDotSlash (dirname p).data = (dirname p).data := by
    rw [hdata]
    unfold stripDotSlash
    rw [List.dropWhile_cons, if_neg]
    simp only [Bool.or_eq_true, decide_eq_true_eq, not_or]
    have h1 : c0 ≠ '/' := by
      intro hcon; rw [hcon] at hc0; exact absurd hc0.1 (by decide)
    have h2 : c0 ≠ '\\' := by
      intro hcon; rw [hcon] at hc0; exact absurd hc0.1 (by decide)
    simp [hdot, h1, h2]
  have hsegs' : ∀ s ∈ (c0 :: s0) :: rest, s ≠ [] ∧ ∀ c ∈ s, isSep c = false :=
    fun s hs => ⟨(hsegs s hs).1, fun c hc => ((hsegs s hs).2 c hc).1⟩
  have htok : normalizedToken p = (⟨joinHyph ((c0 :: s0) :: rest)⟩ : String) := by
    unfold normalizedToken
    rw [hstrip, hd, collapse_join _ hsegs']
  have hform : transformPathToFilename p = normalizedToken p ++ ".json" := by
    unfold transformPathToFilename
    rw [if_neg hne1, if_neg (htok ▸ hconv)]
  rw [hform, htok]
  have hcount : (joinHyph ((c0 :: s0) :: rest)).count '-' = rest.length := by
    have := count_hyph_join ((c0 :: s0) :: rest)
      (fun s hs c hc => ((hsegs s hs).2 c hc).2)
    simpa using this
  have happ : ((⟨joinHyph ((c0 :: s0) :: rest)⟩ : String) ++ ".json").data
      = joinHyph ((c0 :: s0) :: rest) ++ ".json".data := rfl
  rw [happ, List.count_append, hcount]
  have hz : List.count '-' ".json".data = 0 := by decide
  rw [hz]
  exact Nat.add_zero _

/-- Witness for spec_C9 at the concrete path alpha/beta/llmreadme.json,
whose containing directory has 2 segments and whose canonical name
alpha-beta.json has exactly 1 hyphen. -/
theorem spec_C9_witness :
    (transformPathToFilename "alpha/beta/llmreadme.json").data.count '-' = 1 :=
  spec_C9 "alpha/beta/llmreadme.json" 'a' "lpha".data ["beta".data]
    (by decide) (by decide) (by decide) (by decide)

/-! ## Claim C2 -/

/-- Counterexample to Claim C2 as stated: the pre-commit script's SIGINT,
SIGTERM and unhandled-error handlers exit with failing status 1, not with
success status. -/
theorem spec_C2_cex :
    preCommitExitCode TermEvent.sigint ≠ 0 ∧
    preCommitExitCode TermEvent.sigterm ≠ 0 ∧
    preCommitExitCode TermEvent.unhandledError ≠ 0 := by decide

/-- Claim C2, amended: the post-commit phase exits with success status 0 on
every terminal path, including the signal handlers and the unhandled-error
handler; the pre-commit phase completes its normal path (internal errors
are caught inside main) with status 0, but its SIGINT and SIGTERM handlers
and its unhandled-error handler exit with failing status 1. -/
theorem spec_C2 :
    (∀ (env : PostEnv) (fileSt : Option String) (e : TermEvent),
      postCommitExitCode env fileSt e = 0) ∧
    preCommitExitCode TermEvent.normalRun = 0 ∧
    preCommitExitCode TermEvent.sigint = 1 ∧
    preCommitExitCode TermEvent.sigterm = 1 ∧
    preCommitExitCode TermEvent.unhandledError = 1 := by
  refine ⟨fun env fileSt e => ?_, rfl, rfl, rfl, rfl⟩
  cases e with
  | normalRun =>
    show (postMain env fileSt).exitCode = 0
    unfold postMain
    cases loadCommitMetadata fileSt with
    | none => rfl
    | some m =>
      by_cases h : m.hasLlmReadmeFiles = false
      · simp [h]
      · simp [h]
  | sigint => rfl
  | sigterm => rfl
  | unhandledError => rfl

/-! ## IndexMerger lemmas -/

/-- Counter bookkeeping of one merge iteration, for any relocation outcome:
a non-excluded file is always counted as found and always classified as
NEW or UPDATE, before any source or relocation check. -/
theorem processOne_counts (mv : String → MoveKind) (st : MergeState) (p : String) :
    (processOne mv st p).filesFound
      = st.filesFound + (if isExcludedPath p then 0 else 1) ∧
    (processOne mv st p).filesCopied + (processOne mv st p).filesUpdated
      = st.filesCopied + st.filesUpdated + (if isExcludedPath p then 0 else 1) := by
  unfold processOne
  cases hexc : isExcludedPath p with
  | true => simp
  | false =>
    cases hidx : st.idx (transformPathToFilename p) with
    | none =>
      cases hsrc : st.src p with
      | none => simp [hidx, hsrc] <;> omega
      | some c => cases hmv : mv p <;> simp [hidx, hsrc, hmv] <;> omega
    | some v =>
      cases hsrc : st.src p with
      | none => simp [hidx, hsrc] <;> omega
      | some c => cases hmv : mv p <;> simp [hidx, hsrc, hmv] <;> omega

/-- Counter bookkeeping of the whole merge batch: every non-excluded file
contributes one to found and one to NEW+UPDATE, whatever the filesystem
and relocation outcomes; in particular no failure aborts the batch. -/
theorem processLlm_counts (mv : String → MoveKind) :
    ∀ (files : List String) (st : MergeState),
      (processLlmReadmeFiles mv files st).filesFound
        = st.filesFound + (files.filter (fun p => !(isExcludedPath p))).length ∧
      (processLlmReadmeFiles mv files st).filesCopied
          + (processLlmReadmeFiles mv files st).filesUpdated
        = st.filesCopied + st.filesUpdated
          + (files.filter (fun p => !(isExcludedPath p))).length := by
  intro files
  induction files with
  | nil => intro st; simp [processLlmReadmeFiles]
  | cons p rest ih =>
    intro st
    have h1 := processOne_counts mv st p
    have h2 := ih (processOne mv st p)
    have hfold : processLlmReadmeFiles mv (p :: rest) st
        = processLlmReadmeFiles mv rest (processOne mv st p) := rfl
    have hlen : (List.filter (fun q => !(isExcludedPath q)) (p :: rest)).length
        = (List.filter (fun q => !(isExcludedPath q)) rest).length
          + (if isExcludedPath p then 0 else 1) := by
      rw [List.filter_cons]
      cases hexc : isExcludedPath p <;> simp
    rw [hfold]
    omega

/-- A non-excluded file whose source is missing: counted found, counted
NEW or UPDATE, counted skipped, and the filesystem is untouched. -/
theorem processOne_missing_source (mv : String → MoveKind) (st : MergeState)
    (p : String) (hexc : isExcludedPath p = false) (hsrc : st.src p = none) :
    (processOne mv st p).filesSkipped = st.filesSkipped + 1 ∧
    (processOne mv st p).filesFound = st.filesFound + 1 ∧
    (processOne mv st p).filesCopied + (processOne mv st p).filesUpdated
      = st.filesCopied + st.filesUpdated + 1 ∧
    (processOne mv st p).src = st.src ∧
    (processOne mv st p).idx = st.idx := by
  unfold processOne
  cases hidx : st.idx (transformPathToFilename p) with
  | none => simp [hexc, hidx, hsrc] <;> omega
  | some v => simp [hexc, hidx, hsrc] <;> omega

/-- A non-excluded file whose relocation fails entirely (rename and the
copy+unlink fallback): counted found, counted NEW or UPDATE, counted
skipped, and the filesystem is untouched. -/
theorem processOne_move_fail (mv : String → MoveKind) (st : MergeState)
    (p : String) (c : String) (hexc : isExcludedPath p = false)
    (hsrc : st.src p = some c) (hmv : mv p = MoveKind.moveFail) :
    (processOne mv st p).filesSkipped = st.filesSkipped + 1 ∧
    (processOne mv st p).filesFound = st.filesFound + 1 ∧
    (processOne mv st p).filesCopied + (processOne mv st p).filesUpdated
      = st.filesCopied + st.filesUpdated + 1 ∧
    (processOne mv st p).src = st.src ∧
    (processOne mv st p).idx = st.idx := by
  unfold processOne
  cases hidx : st.idx (transformPathToFilename p) with
  | none => simp [hexc, hidx, hsrc, hmv] <;> omega
  | some v => simp [hexc, hidx, hsrc, hmv] <;> omega

/-- Equational description of one successful-rename merge iteration. -/
theorem processOne_move_ok (mv : String → MoveKind) (st : MergeState)
    (p : String) (c : String) (hexc : isExcludedPath p = false)
    (hsrc : st.src p = some c) (hmv : mv p = MoveKind.renameOk) :
    processOne mv st p =
      if (st.idx (transformPathToFilename p)).isSome then
        { st with
            filesFound := st.filesFound + 1,
            filesUpdated := st.filesUpdated + 1,
            src := updFn st.src p none,
            idx := updFn st.idx (transformPathToFilename p) (some c) }
      else
        { st with
            filesFound := st.filesFound + 1,
            filesCopied := st.filesCopied + 1,
            src := updFn st.src p none,
            idx := updFn st.idx (transformPathToFilename p) (some c) } := by
  unfold processOne
  rw [hsrc, hmv]
  cases hidx : st.idx (transformPathToFilename p) <;> simp [hexc, hidx]

/-! ## Claim C3 -/

/-- Counterexample to Claim C3 as stated: a batch with the single artifact
lib/llmreadme.json whose source file is missing classifies it as skipped
AND as NEW (filesCopied = 1), because the NEW/UPDATE classification by
destination existence happens before the source-existence check. -/
theorem spec_C3_cex :
    (processLlmReadmeFiles (fun _ => MoveKind.renameOk) ["lib/llmreadme.json"]
      ⟨fun _ => none, fun _ => none, 0, 0, 0, 0⟩).filesSkipped = 1 ∧
    (processLlmReadmeFiles (fun _ => MoveKind.renameOk) ["lib/llmreadme.json"]
      ⟨fun _ => none, fun _ => none, 0, 0, 0, 0⟩).filesCopied = 1 := ⟨rfl, rfl⟩

/-- Claim C3, amended: an artifact whose source file no longer exists, or
whose relocation fails entirely, increments the skipped counter and leaves
the filesystem untouched, and no single failure aborts the batch; but such
an artifact has already been counted as found and as NEW or UPDATE, so the
returned counters satisfy found = number of non-excluded artifacts and
new + updated = found regardless of failures, with skipped counting the
excluded and the failed artifacts in addition. -/
theorem spec_C3 :
    (∀ (mv : String → MoveKind) (files : List String) (st : MergeState),
      (processLlmReadmeFiles mv files st).filesFound
        = st.filesFound + (files.filter (fun p => !(isExcludedPath p))).length ∧
      (processLlmReadmeFiles mv files st).filesCopied
          + (processLlmReadmeFiles mv files st).filesUpdated
        = st.filesCopied + st.filesUpdated
          + (files.filter (fun p => !(isExcludedPath p))).length) ∧
    (∀ (mv : String → MoveKind) (st : MergeState) (p : String),
      isExcludedPath p = false → st.src p = none →
      (processOne mv st p).filesSkipped = st.filesSkipped + 1 ∧
      (processOne mv st p).filesFound = st.filesFound + 1 ∧
      (processOne mv st p).filesCopied + (processOne mv st p).filesUpdated
        = st.filesCopied + st.filesUpdated + 1 ∧
      (processOne mv st p).src = st.src ∧
      (processOne mv st p).idx = st.idx) ∧
    (∀ (mv : String → MoveKind) (st : MergeState) (p : String) (c : String),
      isExcludedPath p = false → st.src p = some c → mv p = MoveKind.moveFail →
      (processOne mv st p).filesSkipped = st.filesSkipped + 1 ∧
      (processOne mv st p).filesFound = st.filesFound + 1 ∧
      (processOne mv st p).filesCopied + (processOne mv st p).filesUpdated
        = st.filesCopied + st.filesUpdated + 1 ∧
      (processOne mv st p).src = st.src ∧
      (processOne mv st p).idx = st.idx) :=
  ⟨fun mv files st => processLlm_counts mv files st,
   fun mv st p hexc hsrc => processOne_missing_source mv st p hexc hsrc,
   fun mv st p c hexc hsrc hmv => processOne_move_fail mv st p c hexc hsrc hmv⟩

/-- Witness for spec_C3: the missing-source branch at the concrete path
lib/llmreadme.json with empty source tree and empty index. -/
theorem spec_C3_witness :
    (processOne (fun _ => MoveKind.renameOk)
      ⟨fun _ => none, fun _ => none, 0, 0, 0, 0⟩ "lib/llmreadme.json").filesSkipped = 1 ∧
    (processOne (fun _ => MoveKind.renameOk)
      ⟨fun _ => none, fun _ => none, 0, 0, 0, 0⟩ "lib/llmreadme.json").filesFound = 1 := by
  have h := spec_C3.2.1 (fun _ => MoveKind.renameOk)
    ⟨fun _ => none, fun _ => none, 0, 0, 0, 0⟩ "lib/llmreadme.json" (by decide) rfl
  exact ⟨h.1, h.2.1⟩

/-! ## Claim C10 -/

/-- The transform depends only on the containing directory. -/
theorem transform_eq_of_dirname_eq {p1 p2 : String}
    (h : dirname p1 = dirname p2) :
    transformPathToFilename p1 = transformPathToFilename p2 := by
  unfold transformPathToFilename normalizedToken
  rw [h]

/-- Claim C10: two artifacts in the same directory (such as llmreadme.json
and llmreadme-enhanced.json) map to the identical canonical destination
name; processing both in one batch, with the destination initially absent
and both relocations succeeding, counts the first as NEW and the second as
UPDATE, removes both sources, and leaves the destination holding the
content of the artifact discovered later in walk order. -/
theorem spec_C10 (mv : String → MoveKind) (st : MergeState)
    (p1 p2 : String) (c1 c2 : String)
    (hdir : dirname p1 = dirname p2) (hne : p1 ≠ p2)
    (hexc1 : isExcludedPath p1 = false) (hexc2 : isExcludedPath p2 = false)
    (hsrc1 : st.src p1 = some c1) (hsrc2 : st.src p2 = some c2)
    (hidx : st.idx (transformPathToFilename p1) = none)
    (hmv1 : mv p1 = MoveKind.renameOk) (hmv2 : mv p2 = MoveKind.renameOk) :
    transformPathToFilename p1 = transformPathToFilename p2 ∧
    (processLlmReadmeFiles mv [p1, p2] st).idx (transformPathToFilename p1) = some c2 ∧
    (processLlmReadmeFiles mv [p1, p2] st).src p1 = none ∧
    (processLlmReadmeFiles mv [p1, p2] st).src p2 = none ∧
    (processLlmReadmeFiles mv [p1, p2] st).filesFound = st.filesFound + 2 ∧
    (processLlmReadmeFiles mv [p1, p2] st).filesCopied = st.filesCopied + 1 ∧
    (processLlmReadmeFiles mv [p1, p2] st).filesUpdated = st.filesUpdated + 1 ∧
    (processLlmReadmeFiles mv [p1, p2] st).filesSkipped = st.filesSkipped := by
  have htr := transform_eq_of_dirname_eq hdir
  have h1 : processOne mv st p1
      = { st with
            filesFound := st.filesFound + 1,
            filesCopied := st.filesCopied + 1,
            src := updFn st.src p1 none,
            idx := updFn st.idx (transformPathToFilename p1) (some c1) } := by
    rw [processOne_move_ok mv st p1 c1 hexc1 hsrc1 hmv1, hidx]
    rfl
  have hidx2 : (processOne mv st p1).idx (transformPathToFilename p2) = some c1 := by
    rw [h1, ← htr]
    simp [updFn]
  have hsrc2' : (processOne mv st p1).src p2 = some c2 := by
    rw [h1]
    show updFn st.src p1 none p2 = some c2
    unfold updFn
    rw [if_neg (Ne.symm hne)]
    exact hsrc2
  have h2 : processOne mv (processOne mv st p1) p2
      = { (processOne mv st p1) with
            filesFound := (processOne mv st p1).filesFound + 1,
            filesUpdated := (processOne mv st p1).filesUpdated + 1,
            src := updFn (processOne mv st p1).src p2 none,
            idx := updFn (processOne mv st p1).idx (transformPathToFilename p2) (some c2) } := by
    rw [processOne_move_ok mv (processOne mv st p1) p2 c2 hexc2 hsrc2' hmv2, hidx2]
    rfl
  have hfold : processLlmReadmeFiles mv [p1, p2] st
      = processOne mv (processOne mv st p1) p2 := rfl
  refine ⟨htr, ?_, ?_, ?_, ?_, ?_, ?_, ?_⟩
  · rw [hfold, h2]
    show updFn (processOne mv st p1).idx (transformPathToFilename p2) (some c2)
      (transformPathToFilename p1) = some c2
    rw [htr]
    unfold updFn
    rw [if_pos rfl]
  · rw [hfold, h2]
    show updFn (processOne mv st p1).src p2 none p1 = none
    unfold updFn
    rw [if_neg hne, h1]
    show updFn st.src p1 none p1 = none
    unfold updFn
    rw [if_pos rfl]
  · rw [hfold, h2]
    show updFn (processOne mv st p1).src p2 none p2 = none
    unfold updFn
    rw [if_pos rfl]
  · rw [hfold, h2, h1]
  · rw [hfold, h2, h1]
  · rw [hfold, h2, h1]
  · rw [hfold, h2, h1]

/-- Source-tree contents for the spec_C10 witness. -/
def c10srcFn : String → Option String := fun p =>
  if p = "pkg/llmreadme.json" then some "A"
  else if p = "pkg/llmreadme-enhanced.json" then some "B"
  else none

/-- Witness for spec_C10: both recognized artifact filenames in directory
pkg share the destination pkg.json; the batch yields one NEW and one
UPDATE and the later artifact's content wins. -/
theorem spec_C10_witness :
    transformPathToFilename "pkg/llmreadme.json"
      = transformPathToFilename "pkg/llmreadme-enhanced.json" ∧
    (processLlmReadmeFiles (fun _ => MoveKind.renameOk)
        ["pkg/llmreadme.json", "pkg/llmreadme-enhanced.json"]
        ⟨c10srcFn, fun _ => none, 0, 0, 0, 0⟩).idx
      (transformPathToFilename "pkg/llmreadme.json") = some "B" ∧
    (processLlmReadmeFiles (fun _ => MoveKind.renameOk)
        ["pkg/llmreadme.json", "pkg/llmreadme-enhanced.json"]
        ⟨c10srcFn, fun _ => none, 0, 0, 0, 0⟩).filesCopied = 1 ∧
    (processLlmReadmeFiles (fun _ => MoveKind.renameOk)
        ["pkg/llmreadme.json", "pkg/llmreadme-enhanced.json"]
        ⟨c10srcFn, fun _ => none, 0, 0, 0, 0⟩).filesUpdated = 1 := by
  have h := spec_C10 (fun _ => MoveKind.renameOk)
    ⟨c10srcFn, fun _ => none, 0, 0, 0, 0⟩
    "pkg/llmreadme.json" "pkg/llmreadme-enhanced.json" "A" "B"
    (by decide) (by decide) (by decide) (by decide) rfl rfl rfl rfl rfl
  exact ⟨h.1, h.2.1, h.2.2.2.2.2.1, h.2.2.2.2.2.2.1⟩

/-! ## CommandRunner lemmas -/

/-- Running the attempts from a: failures strictly before attempt k and a
success at attempt k inside the window return the captured output after
k - a + 1 attempts, with one backoff of 2^(i-1) seconds per failure. -/
theorem runAttempts_ok (behavior : Nat → Except String String) (retries : Nat) :
    ∀ (n a k : Nat) (o : String),
      a ≤ k → k < a + n →
      (∀ i, a ≤ i → i < k → ∃ e, behavior i = .error e) →
      behavior k = .ok o →
      runAttempts behavior retries (List.range' a n)
        = ⟨.ok o, (List.range' a (k - a)).map (fun i => 2 ^ (i - 1) * 1000), k - a + 1⟩ := by
  intro n
  induction n with
  | zero =>
    intro a k o h1 h2 _ _
    exact absurd h2 (by omega)
  | succ m ih =>
    intro a k o hak hk hfail hok
    have hr : List.range' a (m + 1) = a :: List.range' (a + 1) m := rfl
    rw [hr]
    by_cases hka : k = a
    · subst hka
      rw [runAttempts]
      rw [hok]
      have hz : k - k = 0 := by omega
      rw [hz]
      rfl
    · have hak' : a < k := lt_of_le_of_ne hak (Ne.symm hka)
      cases m with
      | zero => exact absurd hk (by omega)
      | succ m' =>
        obtain ⟨e, he⟩ := hfail a le_rfl hak'
        have hrec := ih (a + 1) k o (by omega) (by omega)
          (fun i hi1 hi2 => hfail i (by omega) hi2) hok
        rw [runAttempts]
        rw [he]
        have hne : (List.range' (a + 1) (m' + 1)).isEmpty = false := rfl
        rw [hne]
        simp only [Bool.false_eq_true, if_false]
        rw [hrec]
        have hs : k - a = (k - (a + 1)) + 1 := by omega
        rw [hs]
        have hrr : List.range' a ((k - (a + 1)) + 1)
            = a :: List.range' (a + 1) (k - (a + 1)) := rfl
        rw [hrr]
        rfl

/-- Running the attempts from a with every attempt failing: the wrapped
error carries the last attempt's message, after exactly n attempts, with
one backoff per non-final attempt. -/
theorem runAttempts_fail (behavior : Nat → Except String String) (retries : Nat)
    (msgOf : Nat → String) :
    ∀ (n a : Nat), 1 ≤ n →
      (∀ i, a ≤ i → i < a + n → behavior i = .error (msgOf i)) →
      runAttempts behavior retries (List.range' a n)
        = ⟨.error (failAfterMsg retries (msgOf (a + n - 1))),
           (List.range' a (n - 1)).map (fun i => 2 ^ (i - 1) * 1000), n⟩ := by
  intro n
  induction n with
  | zero => intro a h1 _; exact absurd h1 (by omega)
  | succ m ih =>
    intro a _ hfail
    have hr : List.range' a (m + 1) = a :: List.range' (a + 1) m := rfl
    rw [hr, runAttempts]
    rw [hfail a le_rfl (by omega)]
    cases m with
    | zero =>
      have he : (List.range' (a + 1) 0).isEmpty = true := rfl
      rw [he]
      simp only [if_true]
      have : a + 1 - 1 = a := by omega
      rw [this]
      rfl
    | succ m' =>
      have hne : (List.range' (a + 1) (m' + 1)).isEmpty = false := rfl
      rw [hne]
      simp only [Bool.false_eq_true, if_false]
      have hrec := ih (a + 1) (by omega)
        (fun i hi1 hi2 => hfail i (by omega) (by omega))
      rw [hrec]
      have h1 : a + 1 + (m' + 1) - 1 = a + (m' + 1 + 1) - 1 := by omega
      rw [h1]
      have h2 : m' + 1 + 1 - 1 = (m' + 1 - 1) + 1 := by omega
      rw [h2]
      have h3 : List.range' a ((m' + 1 - 1) + 1)
          = a :: List.range' (a + 1) (m' + 1 - 1) := rfl
      rw [h3]
      rfl

/-! ## Claim C4 -/

/-- Claim C4: a command failing on attempts 1..k-1 and succeeding on
attempt k within the budget returns the captured output after exactly k
attempts, having slept 2^(i-1) time units (1000 ms base) before each
retry; a command that always fails raises only after exactly maxRetries
attempts, with the wrapped error carrying the final attempt's message. -/
theorem spec_C4 :
    (∀ (behavior : Nat → Except String String) (retries k : Nat) (o : String),
      1 ≤ k → k ≤ retries →
      (∀ i, 1 ≤ i → i < k → ∃ e, behavior i = .error e) →
      behavior k = .ok o →
      executeCommand behavior retries
        = ⟨.ok o, (List.range' 1 (k - 1)).map (fun i => 2 ^ (i - 1) * 1000), k⟩) ∧
    (∀ (behavior : Nat → Except String String) (retries : Nat) (msgOf : Nat → String),
      1 ≤ retries →
      (∀ i, 1 ≤ i → i ≤ retries → behavior i = .error (msgOf i)) →
      executeCommand behavior retries
        = ⟨.error (failAfterMsg retries (msgOf retries)),
           (List.range' 1 (retries - 1)).map (fun i => 2 ^ (i - 1) * 1000), retries⟩) := by
  constructor
  · intro behavior retries k o hk1 hkr hfail hok
    have h := runAttempts_ok behavior retries retries 1 k o hk1 (by omega) hfail hok
    unfold executeCommand
    rw [h]
    have : k - 1 + 1 = k := by omega
    rw [this]
  · intro behavior retries msgOf hr hfail
    have h := runAttempts_fail behavior retries msgOf retries 1 hr
      (fun i hi1 hi2 => hfail i hi1 (by omega))
    unfold executeCommand
    rw [h]
    have : 1 + retries - 1 = retries := by omega
    rw [this]

/-- Behaviour for the spec_C4 witness: fails on attempts 1 and 2,
succeeds on attempt 3. -/
def c4behavior : Nat → Except String String :=
  fun i => if i < 3 then .error (toString i) else .ok "out"

/-- Behaviour for the spec_C4 witness: always fails with the attempt
number as message. -/
def c4behaviorFail : Nat → Except String String := fun i => .error (toString i)

/-- Witness for spec_C4: with budget 3, two failures then a success return
the output after backoffs of 1000 and 2000 ms; with budget 2, constant
failure raises the wrapped message of attempt 2 after one 1000 ms backoff. -/
theorem spec_C4_witness :
    executeCommand c4behavior 3 = ⟨.ok "out", [1000, 2000], 3⟩ ∧
    executeCommand c4behaviorFail 2
      = ⟨.error "Command failed after 2 attempts: 2", [1000], 2⟩ := by
  constructor
  · have h := spec_C4.1 c4behavior 3 3 "out" (by omega) (by omega)
      (fun i _ h2 => ⟨toString i, by unfold c4behavior; rw [if_pos h2]⟩)
      (by rfl)
    rw [h]
    rfl
  · have h := spec_C4.2 c4behaviorFail 2 (fun i => toString i) (by omega)
      (fun i _ _ => rfl)
    rw [h]
    rfl

/-! ## TargetDirectoryResolver lemmas and Claim C6 -/

/-- A single-attempt command with a failing behaviour yields an error. -/
theorem executeCommand_one_error (git : Nat → Except String String) (e : String)
    (h : git 1 = .error e) :
    (executeCommand git 1).result = .error (failAfterMsg 1 e) := by
  unfold executeCommand
  have h1 : List.range' 1 1 = [1] := rfl
  rw [h1, runAttempts, h]
  rfl

/-- getStagedFiles returns the empty list when the git query fails. -/
theorem getStagedFiles_error (git : Nat → Except String String) (e : String)
    (h : git 1 = .error e) : getStagedFiles git = [] := by
  unfold getStagedFiles
  rw [executeCommand_one_error git e h]

/-- Claim C6: the resolver is a total function (it never raises); explicit
configured directories are returned verbatim; a failing staged-files query
degrades to the whole-tree scope, and so does an empty filtered set of
parent directories. -/
theorem spec_C6 :
    (∀ (cfg : List String) (mi : Bool) (git : Nat → Except String String),
      cfg ≠ [] → determineTargetDirectories cfg mi git = cfg) ∧
    (∀ (mi : Bool) (git : Nat → Except String String) (e : String),
      git 1 = .error e → determineTargetDirectories [] mi git = ["."]) ∧
    (∀ (mi : Bool) (git : Nat → Except String String),
      resolverFiltered (getStagedFiles git) = [] →
      determineTargetDirectories [] mi git = ["."]) := by
  refine ⟨?_, ?_, ?_⟩
  · intro cfg mi git hne
    unfold determineTargetDirectories
    rw [if_pos (List.length_pos.mpr hne)]
  · intro mi git e hgit
    unfold determineTargetDirectories
    rw [if_neg (by simp)]
    cases mi with
    | true => rfl
    | false =>
      rw [if_neg (by simp)]
      rw [getStagedFiles_error git e hgit]
      rfl
  · intro mi git hfil
    unfold determineTargetDirectories
    rw [if_neg (by simp)]
    cases mi with
    | true => rfl
    | false =>
      rw [if_neg (by simp)]
      by_cases hlen : (getStagedFiles git).length = 0
      · rw [if_pos hlen]
      · rw [if_neg hlen]
        rw [if_neg (by rw [hfil]; simp)]

/-- Witness for spec_C6: configured directories are returned verbatim, and
a failing git query yields the whole-tree scope. -/
theorem spec_C6_witness :
    determineTargetDirectories ["apps"] false (fun _ => .ok "") = ["apps"] ∧
    determineTargetDirectories [] false (fun _ => .error "boom") = ["."] :=
  ⟨spec_C6.1 ["apps"] false (fun _ => .ok "") (by simp),
   spec_C6.2.1 false (fun _ => .error "boom") "boom" rfl⟩

/-! ## HandoffStore lemmas -/

/-- String concatenation concatenates the underlying character lists. -/
theorem strDataAppend (a b : String) : (a ++ b).data = a.data ++ b.data := rfl

/-- The character list underlying a packed string. -/
theorem strDataMk (l : List Char) : (⟨l⟩ : String).data = l := rfl

/-- One unfolding step of parseStrBody on a nonempty input. -/
theorem parseStrBody_cons (c : Char) (rest : List Char) :
    parseStrBody (c :: rest) =
      if c = '"' then some ([], rest)
      else if c = '\\' then
        match rest with
        | [] => none
        | d :: rest2 =>
          match unescChar d, parseStrBody rest2 with
          | some e, some (s, r) => some (e :: s, r)
          | _, _ => none
      else
        match parseStrBody rest with
        | none => none
        | some (s, r) => some (c :: s, r) := by
  rw [parseStrBody.eq_def]

/-- Literal matching consumes an exact occurrence of the literal. -/
theorem stripLit_append : ∀ (l rest : List Char), stripLit l (l ++ rest) = some rest := by
  intro l
  induction l with
  | nil => intro rest; rfl
  | cons c cs ih =>
    intro rest
    show stripLit (c :: cs) (c :: (cs ++ rest)) = some rest
    rw [stripLit]
    rw [if_pos rfl]
    exact ih rest

/-- Literal matching consumes the whole input when it equals the literal. -/
theorem stripLit_self (l : List Char) : stripLit l l = some [] := by
  have h := stripLit_append l []
  rwa [List.append_nil] at h

/-- Parsing a JSON string body undoes the escaping, leaving the rest of
the input after the closing quote. -/
theorem parse_escape : ∀ (s rest : List Char),
    parseStrBody (escapeStr s ++ '"' :: rest) = some (s, rest) := by
  intro s
  induction s with
  | nil =>
    intro rest
    show parseStrBody ('"' :: rest) = some ([], rest)
    rw [parseStrBody_cons, if_pos rfl]
  | cons c s ih =>
    intro rest
    have hesc : escapeStr (c :: s) = escChar c ++ escapeStr s := rfl
    rw [hesc]
    unfold escChar
    split_ifs with h1 h2 h3 h4 h5 h6 h7
    · subst h1
      have hu : unescChar '"' = some '"' := rfl
      show parseStrBody ('\\' :: '"' :: (escapeStr s ++ '"' :: rest)) = _
      rw [parseStrBody_cons, if_neg (by decide), if_pos rfl]
      simp only [hu, ih]
    · subst h2
      have hu : unescChar '\\' = some '\\' := rfl
      show parseStrBody ('\\' :: '\\' :: (escapeStr s ++ '"' :: rest)) = _
      rw [parseStrBody_cons, if_neg (by decide), if_pos rfl]
      simp only [hu, ih]
    · subst h3
      have hu : unescChar 'n' = some '\n' := rfl
      show parseStrBody ('\\' :: 'n' :: (escapeStr s ++ '"' :: rest)) = _
      rw [parseStrBody_cons, if_neg (by decide), if_pos rfl]
      simp only [hu, ih]
    · subst h4
      have hu : unescChar 'r' = some '\r' := rfl
      show parseStrBody ('\\' :: 'r' :: (escapeStr s ++ '"' :: rest)) = _
      rw [parseStrBody_cons, if_neg (by decide), if_pos rfl]
      simp only [hu, ih]
    · subst h5
      have hu : unescChar 't' = some '\t' := rfl
      show parseStrBody ('\\' :: 't' :: (escapeStr s ++ '"' :: rest)) = _
      rw [parseStrBody_cons, if_neg (by decide), if_pos rfl]
      simp only [hu, ih]
    · subst h6
      have hu : unescChar 'b' = some (Char.ofNat 8) := rfl
      show parseStrBody ('\\' :: 'b' :: (escapeStr s ++ '"' :: rest)) = _
      rw [parseStrBody_cons, if_neg (by decide), if_pos rfl]
      simp only [hu, ih]
    · subst h7
      have hu : unescChar 'f' = some (Char.ofNat 12) := rfl
      show parseStrBody ('\\' :: 'f' :: (escapeStr s ++ '"' :: rest)) = _
      rw [parseStrBody_cons, if_neg (by decide), if_pos rfl]
      simp only [hu, ih]
    · show parseStrBody (c :: (escapeStr s ++ '"' :: rest)) = _
      rw [parseStrBody_cons, if_neg h1, if_neg h2, ih rest]

/-- The canonical serialization parses back to the original record. -/
theorem parse_stringify (m : CommitMetadata) :
    parseMetadata (stringifyMetadata m) = some m := by
  obtain ⟨ts, cm, b⟩ := m
  cases b with
  | true =>
    have hdata : (stringifyMetadata ⟨ts, cm, true⟩).data
        = litTimestamp.data ++ (escapeStr ts.data ++ '"' ::
          (litCommitMessage.data ++ (escapeStr cm.data ++ '"' ::
          (litHasFiles.data ++ ("true".data ++ litEnd.data))))) := by
      unfold stringifyMetadata
      simp only [strDataAppend, strDataMk, List.append_assoc, List.cons_append,
        List.singleton_append]
      rfl
    unfold parseMetadata
    rw [hdata]
    simp only [stripLit_append, parse_escape, stripLit_self]
  | false =>
    have hdata : (stringifyMetadata ⟨ts, cm, false⟩).data
        = litTimestamp.data ++ (escapeStr ts.data ++ '"' ::
          (litCommitMessage.data ++ (escapeStr cm.data ++ '"' ::
          (litHasFiles.data ++ ("false".data ++ litEnd.data))))) := by
      unfold stringifyMetadata
      simp only [strDataAppend, strDataMk, List.append_assoc, List.cons_append,
        List.singleton_append]
      rfl
    have hnone : stripLit "true".data ("false".data ++ litEnd.data) = none := rfl
    unfold parseMetadata
    rw [hdata]
    simp only [stripLit_append, parse_escape, hnone, stripLit_self]

/-! ## Claim C5 -/

/-- Claim C5: writing handoff metadata and loading yields the same record,
for any valid metadata (strings serialized without \\u escapes); after
delete, load yields none; and load is total, yielding none rather than an
error on a missing or unparsable metadata file. -/
theorem spec_C5 :
    (∀ (m : CommitMetadata) (fileSt : Option String),
      validMetadata m = true →
      loadCommitMetadata (saveCommitMetadata true m fileSt) = some m) ∧
    (∀ fileSt : Option String, loadCommitMetadata (cleanupMetadata fileSt) = none) ∧
    loadCommitMetadata none = none ∧
    (∀ s : String, parseMetadata s = none → loadCommitMetadata (some s) = none) := by
  refine ⟨?_, ?_, rfl, ?_⟩
  · intro m fileSt _
    show loadCommitMetadata (some (stringifyMetadata m)) = some m
    show parseMetadata (stringifyMetadata m) = some m
    exact parse_stringify m
  · intro fileSt
    rfl
  · intro s h
    show parseMetadata s = none
    exact h

/-- Witness for spec_C5 at a concrete metadata record with characters that
need escaping. -/
theorem spec_C5_witness :
    loadCommitMetadata (saveCommitMetadata true
      ⟨"2024-01-01T00:00:00.000Z", "msg \"quoted\" \\ done", true⟩ none)
      = some ⟨"2024-01-01T00:00:00.000Z", "msg \"quoted\" \\ done", true⟩ ∧
    loadCommitMetadata (some "garbage") = none :=
  ⟨spec_C5.1 ⟨"2024-01-01T00:00:00.000Z", "msg \"quoted\" \\ done", true⟩ none
    (by decide),
   spec_C5.2.2.2 "garbage" rfl⟩

/-! ## Phase B lemmas -/

/-- The finally block of the post-commit main always deletes the metadata
file. -/
theorem postMain_cleanup (env : PostEnv) (fileSt : Option String) :
    (postMain env fileSt).metadataFileAfter = none := by
  unfold postMain
  cases hload : loadCommitMetadata fileSt with
  | none => rfl
  | some m =>
    by_cases hflag : m.hasLlmReadmeFiles = false
    · simp [hflag, cleanupMetadata]
    · simp [hflag, cleanupMetadata]

/-- The post-commit main always finishes with exit status 0. -/
theorem postMain_exit (env : PostEnv) (fileSt : Option String) :
    (postMain env fileSt).exitCode = 0 := by
  unfold postMain
  cases hload : loadCommitMetadata fileSt with
  | none => rfl
  | some m =>
    by_cases hflag : m.hasLlmReadmeFiles = false
    · simp [hflag]
    · simp [hflag]

/-- Reduction of commitLlmReadmeFiles once staging and the diff query have
both succeeded. -/
theorem commitLlm_eq (env : PostEnv) (m : CommitMetadata)
    (hmi : env.masterIndexHasFiles = true) (o s : String)
    (hadd : (executeCommand env.gitAdd 1).result = .ok o)
    (hdiff : (executeCommand env.gitDiff 1).result = .ok s) :
    commitLlmReadmeFiles env m =
      (if strTrim s = "" then ((false : Bool), [gitAddCmd, gitDiffCmd])
       else
         match (executeCommand env.gitCommit 1).result with
         | .error _ => (false, [gitAddCmd, gitDiffCmd, gitCommitCmd m])
         | .ok _ => (true, [gitAddCmd, gitDiffCmd, gitCommitCmd m])) := by
  unfold commitLlmReadmeFiles
  rw [hmi, hadd, hdiff]
  rfl

/-- The five possible outcomes of commitLlmReadmeFiles. -/
theorem commitLlm_cases (env : PostEnv) (m : CommitMetadata) :
    commitLlmReadmeFiles env m = (true, []) ∨
    commitLlmReadmeFiles env m = (false, [gitAddCmd]) ∨
    commitLlmReadmeFiles env m = (false, [gitAddCmd, gitDiffCmd]) ∨
    commitLlmReadmeFiles env m = (false, [gitAddCmd, gitDiffCmd, gitCommitCmd m]) ∨
    commitLlmReadmeFiles env m = (true, [gitAddCmd, gitDiffCmd, gitCommitCmd m]) := by
  by_cases hmi : env.masterIndexHasFiles = false
  · left
    unfold commitLlmReadmeFiles
    rw [if_pos hmi]
  · have hmi' : env.masterIndexHasFiles = true := by
      revert hmi
      cases env.masterIndexHasFiles <;> simp
    cases hadd : (executeCommand env.gitAdd 1).result with
    | error e =>
      right; left
      unfold commitLlmReadmeFiles
      rw [hmi', hadd]
      rfl
    | ok o =>
      cases hdiff : (executeCommand env.gitDiff 1).result with
      | error e2 =>
        right; right; left
        unfold commitLlmReadmeFiles
        rw [hmi', hadd, hdiff]
        rfl
      | ok s =>
        have heq := commitLlm_eq env m hmi' o s hadd hdiff
        by_cases htrim : strTrim s = ""
        · right; right; left
          rw [heq, if_pos htrim]
        · rw [heq, if_neg htrim]
          cases hcommit : (executeCommand env.gitCommit 1).result with
          | error e3 =>
            right; right; right; left
            rfl
          | ok o2 =>
            right; right; right; right
            rfl

/-! ## Claim C7 -/

/-- Claim C7: with absent or unflagged handoff metadata, phase B issues no
git command and exits cleanly; otherwise every issued command is one of
the fixed staging command (restricted to the master-index subtree), the
staged-diff verification restricted to that subtree, and the commit
command built from the metadata message with hooks bypassed (--no-verify);
an empty trimmed re-queried diff is a failure with no commit issued; when
everything succeeds the three commands run in order and the phase reports
success; every failure is reported as a logged warning with exit status 0,
never an escalation. -/
theorem spec_C7 (env : PostEnv) (fileSt : Option String) :
    (loadCommitMetadata fileSt = none →
      (postMain env fileSt).commands = [] ∧ (postMain env fileSt).exitCode = 0) ∧
    (∀ m, loadCommitMetadata fileSt = some m → m.hasLlmReadmeFiles = false →
      (postMain env fileSt).commands = [] ∧ (postMain env fileSt).exitCode = 0) ∧
    (∀ m, loadCommitMetadata fileSt = some m → m.hasLlmReadmeFiles = true →
      (∀ c ∈ (postMain env fileSt).commands,
        c = gitAddCmd ∨ c = gitDiffCmd ∨ c = gitCommitCmd m) ∧
      (∀ o s, env.masterIndexHasFiles = true →
        (executeCommand env.gitAdd 1).result = .ok o →
        (executeCommand env.gitDiff 1).result = .ok s → strTrim s = "" →
        (postMain env fileSt).ok = false ∧
        (postMain env fileSt).commands = [gitAddCmd, gitDiffCmd]) ∧
      (∀ o s o2, env.masterIndexHasFiles = true →
        (executeCommand env.gitAdd 1).result = .ok o →
        (executeCommand env.gitDiff 1).result = .ok s → strTrim s ≠ "" →
        (executeCommand env.gitCommit 1).result = .ok o2 →
        (postMain env fileSt).ok = true ∧
        (postMain env fileSt).commands = [gitAddCmd, gitDiffCmd, gitCommitCmd m])) ∧
    ((postMain env fileSt).ok = false →
      (postMain env fileSt).warned = true ∧ (postMain env fileSt).exitCode = 0) := by
  refine ⟨?_, ?_, ?_, ?_⟩
  · intro h
    unfold postMain
    rw [h]
    exact ⟨rfl, rfl⟩
  · intro m hm hflag
    unfold postMain
    rw [hm]
    simp [hflag]
  · intro m hm hflag
    have hpm : postMain env fileSt
        = ⟨(commitLlmReadmeFiles env m).1, (commitLlmReadmeFiles env m).2,
           !(commitLlmReadmeFiles env m).1, cleanupMetadata fileSt, 0⟩ := by
      unfold postMain
      rw [hm]
      simp [hflag]
    refine ⟨?_, ?_, ?_⟩
    · rw [hpm]
      intro c hc
      rcases commitLlm_cases env m with h | h | h | h | h <;>
        rw [h] at hc <;> simp at hc <;> tauto
    · intro o s hmi hadd hdiff htrim
      have hr : commitLlmReadmeFiles env m = (false, [gitAddCmd, gitDiffCmd]) := by
        rw [commitLlm_eq env m hmi o s hadd hdiff, if_pos htrim]
      rw [hpm, hr]
      exact ⟨rfl, rfl⟩
    · intro o s o2 hmi hadd hdiff htrim hcommit
      have hr : commitLlmReadmeFiles env m
          = (true, [gitAddCmd, gitDiffCmd, gitCommitCmd m]) := by
        rw [commitLlm_eq env m hmi o s hadd hdiff, if_neg htrim, hcommit]
      rw [hpm, hr]
      exact ⟨rfl, rfl⟩
  · intro hfalse
    cases hload : loadCommitMetadata fileSt with
    | none =>
      have hok : (postMain env fileSt).ok = true := by
        unfold postMain
        rw [hload]
      rw [hok] at hfalse
      exact absurd hfalse (by decide)
    | some m =>
      by_cases hflag : m.hasLlmReadmeFiles = false
      · have hok : (postMain env fileSt).ok = true := by
          unfold postMain
          rw [hload]
          simp [hflag]
        rw [hok] at hfalse
        exact absurd hfalse (by decide)
      · have hpm2 : postMain env fileSt
            = ⟨(commitLlmReadmeFiles env m).1, (commitLlmReadmeFiles env m).2,
               !(commitLlmReadmeFiles env m).1, cleanupMetadata fileSt, 0⟩ := by
          unfold postMain
          rw [hload]
          simp [hflag]
        rw [hpm2] at hfalse ⊢
        simp at hfalse ⊢
        simp [hfalse]

/-- Environment for the spec_C7 witness: master index nonempty and all
three git commands succeed, the staged diff being nonblank. -/
def c7env : PostEnv :=
  ⟨true, fun _ => .ok "", fun _ => .ok "master-index/a.json\n", fun _ => .ok ""⟩

/-- Environment for the spec_C7 witness failure branch: staging fails. -/
def c7envFail : PostEnv :=
  ⟨true, fun _ => .error "add failed", fun _ => .ok "master-index/a.json\n",
   fun _ => .ok ""⟩

/-- Metadata record for the spec_C7 witness. -/
def c7meta : CommitMetadata := ⟨"t", "msg", true⟩

/-- Witness for spec_C7: with parsed flagged metadata and an all-success
environment the three commands run in order and the phase succeeds; with a
failing staging command the phase warns and still exits 0. -/
theorem spec_C7_witness :
    ((postMain c7env (some (stringifyMetadata c7meta))).ok = true ∧
     (postMain c7env (some (stringifyMetadata c7meta))).commands
       = [gitAddCmd, gitDiffCmd, gitCommitCmd c7meta]) ∧
    ((postMain c7envFail (some (stringifyMetadata c7meta))).warned = true ∧
     (postMain c7envFail (some (stringifyMetadata c7meta))).exitCode = 0) := by
  constructor
  · have h := (spec_C7 c7env (some (stringifyMetadata c7meta))).2.2.1 c7meta rfl rfl
    exact h.2.2 "" "master-index/a.json\n" "" rfl rfl rfl (by decide) rfl
  · exact (spec_C7 c7envFail (some (stringifyMetadata c7meta))).2.2.2 rfl

/-! ## Claim C8 -/

/-- Claim C8: on every terminal path of phase B (normal completion,
including the early returns on absent or unflagged metadata and the caught
internal failures, plus the SIGINT, SIGTERM and unhandled-error handlers)
the handoff metadata file is deleted before process exit, and the exit
status is 0. -/
theorem spec_C8 :
    ∀ (env : PostEnv) (fileSt : Option String) (e : TermEvent),
      (postTerminal env fileSt e).1 = none ∧ (postTerminal env fileSt e).2 = 0 := by
  intro env fileSt e
  cases e with
  | normalRun => exact ⟨postMain_cleanup env fileSt, postMain_exit env fileSt⟩
  | sigint => exact ⟨rfl, rfl⟩
  | sigterm => exact ⟨rfl, rfl⟩
  | unhandledError => exact ⟨rfl, rfl⟩

end LlmReadme
